import Mathlib

/-!
Verification development for the comment-tree fetching, flattening, rendering and
JSON-extraction core of the techstacks.io scripts repository.

The embedding covers:

* `scripts/analyze_hn_comments.py`: `fetch_item`, `fetch_comment_tree`,
  `collect_all_comments`, `flatten_comments`, `comments_to_text`,
  `parse_json_response` (the HN variant);
* `scripts/analyze_reddit_comments.py`: `parse_comment` (plus the duplicated
  `flatten_comments` / `comments_to_text`, which are line-identical to the HN ones
  and are represented once);
* `scripts/utils.py`: `parse_json_response`.

Modelling conventions:

* The Hacker News item API is an abstract environment `Upstream : Nat → UpResp`
  classifying, per item id, what `SESSION.get(...)` yields: a raised transport
  exception (`.err`, covering timeouts, connection errors and unparseable 200
  responses, all of which propagate out of `fetch_item` as exceptions), a
  non-200 status (`.badStatus`, which `fetch_item` maps to `None`), a 200
  response whose parsed JSON is falsy (`.empty`), or a 200 response with a
  non-empty JSON object (`.ok item`).
* Python `dict.get` with a default is modelled by `Option` fields plus `Option.getD`.
* Raised exceptions are `Except.error ()`; `None` results are `.ok none`.
* The HTML-to-text regex pipeline of `clean_html` (lines 66-74, operating only on
  non-empty input) is an opaque parameter `pipeline : String → String`; the
  empty-string guard of line 64-65 is explicit.  No claim depends on the
  pipeline's output on non-empty input.
* The `ThreadPoolExecutor` / `as_completed` loops are given an explicit completion
  order: `sched parent depth kids` is the order in which the child fetch tasks of
  a fan-out point complete (always a permutation of the submitted `kids`), and the
  `results` dict filled in completion order is an association list with
  most-recent-first lookup, exactly mirroring dict insertion/overwrite.
* Python strings are sequences of code points; where character-exact reasoning is
  needed the `String.data` list is used, so `len`/slicing are `List.length`/`List.take`.
-/

/-! ### Data model: normalized comment trees (`CommentNode`) and flat entries -/

/-- A fetched comment dict as built by `fetch_comment_tree` (analyze_hn_comments.py
lines 83-89): id, author (`by`), cleaned text, time, and the ordered children. -/
inductive CommentNode where
  | mk : Nat → String → String → Nat → List CommentNode → CommentNode

def CommentNode.id : CommentNode → Nat
  | .mk i _ _ _ _ => i

def CommentNode.by_ : CommentNode → String
  | .mk _ b _ _ _ => b

def CommentNode.text : CommentNode → String
  | .mk _ _ x _ _ => x

def CommentNode.time : CommentNode → Nat
  | .mk _ _ _ t _ => t

def CommentNode.children : CommentNode → List CommentNode
  | .mk _ _ _ _ cs => cs

/-- One element of the list produced by `flatten_comments`: a dict with keys
`by`, `text`, `depth` (analyze_hn_comments.py line 144). -/
structure FlatEntry where
  by_ : String
  text : String
  depth : Nat
deriving DecidableEq

/-! ### The Hacker News item API boundary and `fetch_item` -/

/-- A raw HN item JSON object, with `dict.get`-style optional fields.
`id` is always present (`fetch_comment_tree` reads `item["id"]` unconditionally). -/
structure Item where
  id : Nat
  type : Option String
  by_ : Option String
  text : Option String
  time : Option Nat
  kids : List Nat
  dead : Bool
  deleted : Bool
deriving DecidableEq

/-- What the upstream HN API does for one item id, classified by the branches of
`fetch_item` (analyze_hn_comments.py lines 51-59): a raised transport exception,
a non-200 status, a 200 response whose JSON body is falsy (e.g. `null`), or a 200
response carrying an item object. -/
inductive UpResp where
  | err
  | badStatus
  | empty
  | ok (item : Item)
deriving DecidableEq

def Upstream := Nat → UpResp

/-- Embedding of `fetch_item` (analyze_hn_comments.py lines 51-59): propagate
transport exceptions; return `None` on non-200 status, falsy body, or an item
flagged `dead` or `deleted`; otherwise return the item. -/
def fetch_item (env : Upstream) (item_id : Nat) : Except Unit (Option Item) :=
  match env item_id with
  | .err => .error ()
  | .badStatus => .ok none
  | .empty => .ok none
  | .ok item => if item.dead || item.deleted then .ok none else .ok (some item)

/-- Embedding of `clean_html` (analyze_hn_comments.py lines 62-74).  The guard
`if not text: return ""` of lines 64-65 is explicit; the HTML-entity/regex
pipeline applied to non-empty input (lines 66-74) is the opaque parameter
`pipeline`, since no verified claim depends on its output. -/
def clean_html (pipeline : String → String) (text : String) : String :=
  if text = "" then "" else pipeline text

/-! ### The tree fetcher `fetch_comment_tree` and forest fetcher `collect_all_comments` -/

/-- Collapse a child-task outcome the way the `as_completed` loop does
(analyze_hn_comments.py lines 96-103): a raised exception or a `None` ("falsy")
result contributes nothing; a comment dict is kept. -/
def exceptToOption : Except Unit (Option CommentNode) → Option CommentNode
  | .ok (some c) => some c
  | _ => none

/-- The `results` dict of the `as_completed` loop (analyze_hn_comments.py lines
95-103), filled in completion order `order`: each successful child is inserted
under its submitted id; insertion is cons (most recent first), so `List.lookup`
returns the latest insertion exactly like dict assignment. -/
def gatherResults (f : Nat → Except Unit (Option CommentNode)) (order : List Nat) :
    List (Nat × CommentNode) :=
  order.foldl (fun m kid =>
    match f kid with
    | .ok (some c) => (kid, c) :: m
    | _ => m) []

/-- The non-recursive part of `fetch_comment_tree` (analyze_hn_comments.py lines
77-109): fetch the item, prune non-comments, build the comment dict with
`dict.get` defaults, and delegate the child list to `fetchKids` (which receives
the declared `kids` only when that list is non-empty, mirroring the
`if kid_ids and max_depth > 0` truthiness test on `kid_ids`). -/
def fetchNode (env : Upstream) (pipeline : String → String) (item_id : Nat)
    (fetchKids : List Nat → List CommentNode) : Except Unit (Option CommentNode) :=
  match fetch_item env item_id with
  | .error e => .error e
  | .ok none => .ok none
  | .ok (some item) =>
    if item.type = some "comment" then
      .ok (some (CommentNode.mk item.id (item.by_.getD "[deleted]")
        (clean_html pipeline (item.text.getD "")) (item.time.getD 0)
        (match item.kids with
         | [] => []
         | kids => fetchKids kids)))
    else .ok none

/-- Embedding of `fetch_comment_tree` (analyze_hn_comments.py lines 77-109).
`sched item_id depth kids` is the completion order of the concurrently submitted
child fetches at this fan-out point (`as_completed` iteration order); the
children are then reassembled by walking the declared `kid_ids` and looking each
id up in the `results` dict (lines 104-107).  Recursion is bounded by
`max_depth`, decremented per level; with depth exhausted (or no declared kids)
the child list is `[]` (line 92). -/
def fetch_comment_tree (env : Upstream) (pipeline : String → String)
    (sched : Nat → Nat → List Nat → List Nat) :
    Nat → Nat → Except Unit (Option CommentNode)
  | item_id, 0 => fetchNode env pipeline item_id (fun _ => [])
  | item_id, f + 1 => fetchNode env pipeline item_id (fun kids =>
      kids.filterMap (fun kid =>
        (gatherResults (fun k => fetch_comment_tree env pipeline sched k f)
          (sched item_id (f + 1) kids)).lookup kid))

/-- The completion-order-free description of the tree fetcher: children are the
declared kid ids, in declared order, filtered by successful recursive fetch.
This is the canonical result that `fetch_comment_tree` is proved to compute for
every completion schedule. -/
def fetch_comment_tree_declared (env : Upstream) (pipeline : String → String) :
    Nat → Nat → Except Unit (Option CommentNode)
  | item_id, 0 => fetchNode env pipeline item_id (fun _ => [])
  | item_id, f + 1 => fetchNode env pipeline item_id (fun kids =>
      kids.filterMap (fun kid =>
        exceptToOption (fetch_comment_tree_declared env pipeline kid f)))

/-- Embedding of `collect_all_comments` (analyze_hn_comments.py lines 112-139):
fan out `fetch_comment_tree` (at its default `max_depth = 50`) over the post's
top-level kid ids, fill the `results` dict in completion order `rootOrder`, then
walk the declared kid ids and keep the successful trees in declared order.
Progress printing (lines 133-134) is an ignored side effect. -/
def collect_all_comments (env : Upstream) (pipeline : String → String)
    (sched : Nat → Nat → List Nat → List Nat) (rootOrder : List Nat)
    (post : Item) : List CommentNode :=
  match post.kids with
  | [] => []
  | kids => kids.filterMap (fun kid =>
      (gatherResults (fun k => fetch_comment_tree env pipeline sched k 50)
        rootOrder).lookup kid)

/-! ### Flattener: `flatten_comments` -/

mutual
/-- Embedding of `flatten_comments` (analyze_hn_comments.py lines 142-147, and
its identical twin in analyze_reddit_comments.py lines 82-87): pre-order walk
emitting `(by, text, depth)`, children at `depth + 1`. -/
def flatten_comments : CommentNode → Nat → List FlatEntry
  | .mk _ b x _ children, depth =>
    ⟨b, x, depth⟩ :: flatten_children children (depth + 1)

/-- The `for child in ... : result.extend(...)` loop of `flatten_comments`. -/
def flatten_children : List CommentNode → Nat → List FlatEntry
  | [], _ => []
  | c :: cs, depth => flatten_comments c depth ++ flatten_children cs depth
end

/-- Flattening a forest: the callers of `flatten_comments` iterate the top-level
trees in order, each flattened from depth 0 (`comments_to_text` lines 154-155,
`main` line 304). -/
def flatten_forest (comments : List CommentNode) : List FlatEntry :=
  comments.flatMap (fun t => flatten_comments t 0)

mutual
/-- Number of nodes of a comment tree (specification-side measure used to state
that pre-order flattening lists every node exactly once). -/
def nodeCount : CommentNode → Nat
  | .mk _ _ _ _ children => 1 + nodeCountList children

def nodeCountList : List CommentNode → Nat
  | [] => 0
  | c :: cs => nodeCount c + nodeCountList cs
end

/-! ### Renderer: `comments_to_text` -/

/-- One rendered line `f"{indent}[{c['by']}]: {c['text']}"` with
`indent = "  " * depth` (analyze_hn_comments.py lines 158-159). -/
def line_of (c : FlatEntry) : String :=
  String.mk (List.replicate (2 * c.depth) ' ') ++ "[" ++ c.by_ ++ "]: " ++ c.text

/-- The two `lines.append` calls per rendered entry: the entry line then `""`. -/
def lines_of (es : List FlatEntry) : List String :=
  es.flatMap (fun c => [line_of c, ""])

/-- Python `"\n".join(lines)` on the code-point level. -/
def nl_join : List String → List Char
  | [] => []
  | [s] => s.data
  | s :: rest => s.data ++ '\n' :: nl_join rest

/-- The inner loop of `comments_to_text` (lines 155-161): walk one tree's
flattened entries, stopping as soon as `count >= max_comments`; returns the
emitted lines and the updated count. -/
def ctt_inner : List FlatEntry → Nat → Nat → List String × Nat
  | [], count, _ => ([], count)
  | c :: rest, count, max_comments =>
    if count ≥ max_comments then ([], count)
    else
      let r := ctt_inner rest (count + 1) max_comments
      (line_of c :: "" :: r.1, r.2)

/-- The outer loop of `comments_to_text` (lines 154-163): per tree, run the
inner loop, then stop once `count >= max_comments`. -/
def ctt_outer : List CommentNode → Nat → Nat → List String
  | [], _, _ => []
  | t :: ts, count, max_comments =>
    let r := ctt_inner (flatten_comments t 0) count max_comments
    if r.2 ≥ max_comments then r.1 else r.1 ++ ctt_outer ts r.2 max_comments

/-- The truncation marker appended by `comments_to_text` line 166. -/
def trunc_marker : String := "\n\n[...comments truncated...]"

/-- Embedding of `comments_to_text` (analyze_hn_comments.py lines 150-167, and
its identical twin in analyze_reddit_comments.py lines 90-107): join the emitted
lines with newlines, then hard-truncate at `max_chars` code points and append
the marker if the joined text is longer than `max_chars`. -/
def comments_to_text (comments : List CommentNode)
    (max_comments : Nat := 200) (max_chars : Nat := 30000) : String :=
  let text := nl_join (ctt_outer comments 0 max_comments)
  if text.length > max_chars then ⟨text.take max_chars ++ trunc_marker.data⟩
  else ⟨text⟩

/-- The joined text before the character-limit step, as a function of the forest
and the entry limit (the value of the local `text` at line 164). -/
def rendered_lines_text (comments : List CommentNode) (max_comments : Nat) : List Char :=
  nl_join (ctt_outer comments 0 max_comments)

/-- Specification-side renderer on an already-selected entry list: used to state
that `comments_to_text` renders exactly the first `max_comments` flattened
entries and only then applies the character limit. -/
def render_entries (es : List FlatEntry) (max_chars : Nat) : String :=
  let text := nl_join (lines_of es)
  if text.length > max_chars then ⟨text.take max_chars ++ trunc_marker.data⟩
  else ⟨text⟩

/-- The per-entry block claimed by the spec: `"{indent}[{author}]: {body}\n\n"`. -/
def entry_block (c : FlatEntry) : List Char :=
  (line_of c).data ++ ['\n', '\n']

/-! ### Reddit comment parsing: `parse_comment` (analyze_reddit_comments.py) -/

/-- A Reddit "thing" as consumed by `parse_comment`: the `kind` discriminator and
the fields read from `thing["data"]` (all via `dict.get`, hence `Option`); the
`replies` field is `some children` exactly when it is a dict (in which case
`replies["data"]["children"]` is the child list, defaulting to `[]`), and `none`
when it is missing or a non-dict such as `""`. -/
inductive RThing where
  | mk : Option String → Option String → Option String → Option String →
      Option Nat → Option (List RThing) → RThing

def RThing.kind : RThing → Option String
  | .mk k _ _ _ _ _ => k

def RThing.id : RThing → Option String
  | .mk _ i _ _ _ _ => i

def RThing.author : RThing → Option String
  | .mk _ _ a _ _ _ => a

def RThing.body : RThing → Option String
  | .mk _ _ _ b _ _ => b

def RThing.created_utc : RThing → Option Nat
  | .mk _ _ _ _ t _ => t

def RThing.replies : RThing → Option (List RThing)
  | .mk _ _ _ _ _ r => r

/-- A normalized Reddit comment dict as built by `parse_comment` (lines 63-69). -/
inductive RComment where
  | mk : String → String → String → Nat → List RComment → RComment

def RComment.id : RComment → String
  | .mk i _ _ _ _ => i

def RComment.by_ : RComment → String
  | .mk _ b _ _ _ => b

def RComment.text : RComment → String
  | .mk _ _ x _ _ => x

def RComment.time : RComment → Nat
  | .mk _ _ _ t _ => t

def RComment.children : RComment → List RComment
  | .mk _ _ _ _ cs => cs

/-- The non-recursive part of `parse_comment` (analyze_reddit_comments.py lines
54-79): reject non-`t1` things and `"[deleted]"`/`"[removed]"` bodies, build the
comment with `dict.get` defaults, and delegate the reply list to `childrenFn`. -/
def parseRNode (thing : RThing) (childrenFn : List RThing → List RComment) :
    Option RComment :=
  if thing.kind ≠ some "t1" then none
  else if thing.body = some "[deleted]" ∨ thing.body = some "[removed]" then none
  else some (.mk (thing.id.getD "") (thing.author.getD "[deleted]")
    (thing.body.getD "") (thing.created_utc.getD 0)
    (match thing.replies with
     | some children => childrenFn children
     | none => []))

/-- Embedding of `parse_comment` (analyze_reddit_comments.py lines 54-79):
recursion into replies happens only while `max_depth > 0`, with `max_depth - 1`
for the children; unparseable children are dropped. -/
def parse_comment : RThing → Nat → Option RComment
  | thing, 0 => parseRNode thing (fun _ => [])
  | thing, d + 1 => parseRNode thing (fun children =>
      children.filterMap (fun c => parse_comment c d))

/-! ### A JSON value parser modelling Python `json.loads`

`parse_json_response` needs an executable stand-in for `json.loads`.  The parser
below implements the JSON grammar accepted by Python's default decoder (including
`NaN`/`Infinity`/`-Infinity`, strict whitespace `" \t\n\r"`, rejection of raw
control characters in strings, and no trailing data).  Numbers are normalized to
`mantissa * 10 ^ exp10`; `\uXXXX` escapes become single code points (surrogate
pairs are not recombined).  Objects keep their key/value pairs in source order. -/

inductive JValue where
  | null
  | bool (b : Bool)
  | num (mantissa : Int) (exp10 : Int)
  | nan
  | inf (neg : Bool)
  | str (s : String)
  | arr (elems : List JValue)
  | obj (fields : List (String × JValue))

/-- JSON inter-token whitespace (Python json accepts exactly `" \t\n\r"`). -/
def jskipWs : List Char → List Char
  | c :: cs => if c == ' ' || c == '\t' || c == '\n' || c == '\r' then jskipWs cs else c :: cs
  | [] => []

def hexDigitVal (c : Char) : Option Nat :=
  if '0' ≤ c ∧ c ≤ '9' then some (c.toNat - 48)
  else if 'a' ≤ c ∧ c ≤ 'f' then some (c.toNat - 87)
  else if 'A' ≤ c ∧ c ≤ 'F' then some (c.toNat - 55)
  else none

/-- Single-character JSON escape sequences (`\uXXXX` is handled separately). -/
def escChar : Char → Option Char
  | '"' => some '"'
  | '\\' => some '\\'
  | '/' => some '/'
  | 'b' => some '\x08'
  | 'f' => some '\x0c'
  | 'n' => some '\n'
  | 'r' => some '\r'
  | 't' => some '\t'
  | _ => none

/-- JSON string scanner (input begins after the opening quote): handles the
escape sequences of the JSON grammar and rejects raw control characters. -/
def jstring : List Char → List Char → Option (String × List Char)
  | acc, '"' :: rest => some (String.mk acc.reverse, rest)
  | acc, '\\' :: 'u' :: h1 :: h2 :: h3 :: h4 :: rest =>
    (match hexDigitVal h1, hexDigitVal h2, hexDigitVal h3, hexDigitVal h4 with
     | some a, some b, some c, some d =>
       jstring (Char.ofNat (4096 * a + 256 * b + 16 * c + d) :: acc) rest
     | _, _, _, _ => none)
  | acc, '\\' :: e :: rest =>
    (match escChar e with
     | some c => jstring (c :: acc) rest
     | none => none)
  | acc, c :: rest => if c.toNat < 32 then none else jstring (c :: acc) rest
  | _, [] => none

/-- Longest leading digit run. -/
def jdigits : List Char → List Char × List Char
  | c :: cs =>
    if c.isDigit then
      let r := jdigits cs
      (c :: r.1, r.2)
    else ([], c :: cs)
  | [] => ([], [])

def digitsToNat (ds : List Char) : Nat :=
  ds.foldl (fun n c => 10 * n + (c.toNat - 48)) 0

/-- JSON integer part: `0`, or a nonzero digit followed by digits. -/
def jintDigits : List Char → Option (List Char × List Char)
  | '0' :: rest => some (['0'], rest)
  | c :: rest => if c.isDigit then some (jdigits (c :: rest)) else none
  | [] => none

/-- JSON number token, mirroring Python json's `NUMBER_RE`
`(-?(?:0|[1-9]\d+|[1-9]))(\.\d+)?([eE][-+]?\d+)?`: a fraction or exponent part is
consumed only when complete, otherwise it is left in the remainder. -/
def jnumber (cs : List Char) : Option (JValue × List Char) :=
  let neg := cs.head? = some '-'
  let cs1 := if neg then cs.tail else cs
  match jintDigits cs1 with
  | none => none
  | some (intDs, r1) =>
    let fr : List Char × List Char :=
      match r1 with
      | '.' :: r' =>
        let d := jdigits r'
        if d.1 = [] then ([], r1) else (d.1, d.2)
      | _ => ([], r1)
    let ex : Int × List Char :=
      match fr.2 with
      | e :: r' =>
        if e == 'e' || e == 'E' then
          let sd : Int × List Char :=
            match r' with
            | '+' :: r2 => (1, r2)
            | '-' :: r2 => (-1, r2)
            | _ => (1, r')
          let d := jdigits sd.2
          if d.1 = [] then (0, fr.2) else (sd.1 * (digitsToNat d.1 : Int), d.2)
        else (0, fr.2)
      | [] => (0, fr.2)
    let mantissa : Int :=
      (if neg then -1 else 1) * (digitsToNat (intDs ++ fr.1) : Int)
    some (.num mantissa (ex.1 - fr.1.length), ex.2)

/-- Pending container context of the JSON value machine. -/
inductive JCtx where
  | arrCtx (acc : List JValue)
  | objCtx (acc : List (String × JValue)) (key : String)

/-- Mode of the JSON value machine: expecting a value, or having just closed one. -/
inductive JMode where
  | value
  | closed (v : JValue)

/-- One-pass JSON parser as a fuel-indexed stack machine.  Every step consumes at
least one input character (except the final acceptance step), so fuel
`2 * length + 4` in `json_loads` never runs out on real input. -/
def jstep : Nat → JMode → List Char → List JCtx → Option JValue
  | 0, _, _, _ => none
  | fuel + 1, .value, cs, stk =>
    (match jskipWs cs with
     | 'n' :: 'u' :: 'l' :: 'l' :: rest => jstep fuel (.closed .null) rest stk
     | 't' :: 'r' :: 'u' :: 'e' :: rest => jstep fuel (.closed (.bool true)) rest stk
     | 'f' :: 'a' :: 'l' :: 's' :: 'e' :: rest => jstep fuel (.closed (.bool false)) rest stk
     | 'N' :: 'a' :: 'N' :: rest => jstep fuel (.closed .nan) rest stk
     | 'I' :: 'n' :: 'f' :: 'i' :: 'n' :: 'i' :: 't' :: 'y' :: rest =>
       jstep fuel (.closed (.inf false)) rest stk
     | '-' :: 'I' :: 'n' :: 'f' :: 'i' :: 'n' :: 'i' :: 't' :: 'y' :: rest =>
       jstep fuel (.closed (.inf true)) rest stk
     | '"' :: rest =>
       (match jstring [] rest with
        | some (s, rest2) => jstep fuel (.closed (.str s)) rest2 stk
        | none => none)
     | '[' :: rest =>
       (match jskipWs rest with
        | ']' :: rest2 => jstep fuel (.closed (.arr [])) rest2 stk
        | _ => jstep fuel .value rest (.arrCtx [] :: stk))
     | '{' :: rest =>
       (match jskipWs rest with
        | '}' :: rest2 => jstep fuel (.closed (.obj [])) rest2 stk
        | '"' :: rest2 =>
          (match jstring [] rest2 with
           | some (key, rest3) =>
             (match jskipWs rest3 with
              | ':' :: rest4 => jstep fuel .value rest4 (.objCtx [] key :: stk)
              | _ => none)
           | none => none)
        | _ => none)
     | other =>
       (match jnumber other with
        | some (v, rest) => jstep fuel (.closed v) rest stk
        | none => none))
  | fuel + 1, .closed v, cs, stk =>
    match stk with
    | [] => if (jskipWs cs).isEmpty then some v else none
    | .arrCtx acc :: stk' =>
      (match jskipWs cs with
       | ',' :: rest => jstep fuel .value rest (.arrCtx (v :: acc) :: stk')
       | ']' :: rest => jstep fuel (.closed (.arr (v :: acc).reverse)) rest stk'
       | _ => none)
    | .objCtx acc key :: stk' =>
      (match jskipWs cs with
       | ',' :: rest =>
         (match jskipWs rest with
          | '"' :: rest2 =>
            (match jstring [] rest2 with
             | some (key2, rest3) =>
               (match jskipWs rest3 with
                | ':' :: rest4 =>
                  jstep fuel .value rest4 (.objCtx ((key, v) :: acc) key2 :: stk')
                | _ => none)
             | none => none)
          | _ => none)
       | '}' :: rest => jstep fuel (.closed (.obj ((key, v) :: acc).reverse)) rest stk'
       | _ => none)

/-- Executable model of Python `json.loads` restricted to reporting success or
failure with the parsed value. -/
def json_loads (s : String) : Option JValue :=
  jstep (2 * s.data.length + 4) .value s.data []

/-! ### The structured extractor `parse_json_response` -/

/-- Python `\s` / `str.strip` whitespace on the ASCII range (`" \t\n\r\f\v"`);
Unicode whitespace, which cannot occur in the verified inputs, is omitted. -/
def pyIsSpace (c : Char) : Bool :=
  c == ' ' || c == '\t' || c == '\n' || c == '\r' || c == '\x0b' || c == '\x0c'

/-- Python `str.strip()`. -/
def pyStrip (s : String) : String :=
  String.mk (((s.data.dropWhile pyIsSpace).reverse.dropWhile pyIsSpace).reverse)

/-- `re.sub(r"^...(?:json)?\s*", "", s)` for the backtick fence opener: drop a
leading triple backtick, an optional `json` tag, and following whitespace. -/
def stripLeadingFence (s : String) : String :=
  match s.data with
  | '`' :: '`' :: '`' :: rest =>
    let rest2 :=
      match rest with
      | 'j' :: 's' :: 'o' :: 'n' :: r => r
      | _ => rest
    String.mk (rest2.dropWhile pyIsSpace)
  | _ => s

/-- `re.sub(r"\s*...$", "", s)` for the backtick fence closer: drop a trailing
triple backtick and the whitespace before it.  (The `$` anchor sees the true end
of the string here because the input was already stripped.) -/
def stripTrailingFence (s : String) : String :=
  match s.data.reverse with
  | '`' :: '`' :: '`' :: rest => String.mk ((rest.dropWhile pyIsSpace).reverse)
  | _ => s

/-- Prefix of `l` up to and including the last occurrence of `c` (empty if `c`
does not occur). -/
def takeToLast (c : Char) (l : List Char) : List Char :=
  (l.reverse.dropWhile (· != c)).reverse

/-- The greedy span search `re.search(r"(\{[\s\S]*\}|\[[\s\S]*\])", text)` of
utils.py line 76: leftmost position holding `{` with a later `}` (or `[` with a
later `]`), extended to the last matching closer in the whole text. -/
def searchJsonSpan : List Char → Option (List Char)
  | [] => none
  | c :: rest =>
    if c = '{' && rest.contains '}' then some ('{' :: takeToLast '}' rest)
    else if c = '[' && rest.contains ']' then some ('[' :: takeToLast ']' rest)
    else searchJsonSpan rest

/-- The braces-only span search of the HN variant (analyze_hn_comments.py line
216), whose regex has no bracket alternative. -/
def searchJsonSpanHn : List Char → Option (List Char)
  | [] => none
  | c :: rest =>
    if c = '{' && rest.contains '}' then some ('{' :: takeToLast '}' rest)
    else searchJsonSpanHn rest

/-- Embedding of `parse_json_response` (utils.py lines 59-83): verbatim parse,
then fence-stripped parse of the stripped text, then parse of the greedy
object/array span of the original text; raise `ValueError` (modelled
`Except.error ()`) when all three fail.  (The strategy-3 `print` on a failed
span parse is an ignored side effect.) -/
def parse_json_response (text : String) : Except Unit JValue :=
  match json_loads text with
  | some v => .ok v
  | none =>
    match json_loads (stripTrailingFence (stripLeadingFence (pyStrip text))) with
    | some v => .ok v
    | none =>
      match searchJsonSpan text.data with
      | some span =>
        (match json_loads (String.mk span) with
         | some v => .ok v
         | none => .error ())
      | none => .error ()

/-- Embedding of the HN-local `parse_json_response` (analyze_hn_comments.py
lines 204-219): identical chain, but the span regex matches objects only, and a
failed strategy-3 parse raises `json.JSONDecodeError` (a `ValueError` subclass;
the same failure condition in this model). -/
def parse_json_response_hn (text : String) : Except Unit JValue :=
  match json_loads text with
  | some v => .ok v
  | none =>
    match json_loads (stripTrailingFence (stripLeadingFence (pyStrip text))) with
    | some v => .ok v
    | none =>
      match searchJsonSpanHn text.data with
      | some span =>
        (match json_loads (String.mk span) with
         | some v => .ok v
         | none => .error ())
      | none => .error ()

/-- Strategy 1 of the extractor chain: parse the text verbatim. -/
def strategy_verbatim (text : String) : Option JValue :=
  json_loads text

/-- Strategy 2: strip markdown fences from the stripped text, then parse. -/
def strategy_fenced (text : String) : Option JValue :=
  json_loads (stripTrailingFence (stripLeadingFence (pyStrip text)))

/-- Strategy 3: parse the greedy first-opener-to-last-closer span of the
original text (`none` both when no span exists and when the span fails to
parse). -/
def strategy_span (text : String) : Option JValue :=
  (searchJsonSpan text.data).bind (fun span => json_loads (String.mk span))

/-! ### Specification-side predicates and concrete test fixtures -/

/-- The conditions under which the resolver (`fetch_item` plus the type check of
`fetch_comment_tree`) actually yields *absent* for an id: non-200 status, falsy
response body, dead or deleted flags, or a non-comment type. -/
def hn_absent (env : Upstream) (item_id : Nat) : Bool :=
  match env item_id with
  | .err => false
  | .badStatus => true
  | .empty => true
  | .ok item => item.dead || item.deleted || item.type != some "comment"

/-- The absent conditions as the specification words them: removed/deleted/dead,
wrong item type, or malformed/empty response body — with a non-OK HTTP status
*not* listed (the specification classifies that as a propagating transport
failure). -/
def spec_absent_cond (env : Upstream) (item_id : Nat) : Bool :=
  match env item_id with
  | .err => false
  | .badStatus => false
  | .empty => true
  | .ok item => item.dead || item.deleted || item.type != some "comment"

/-- A completion schedule in which every fan-out point completes its children in
reverse order of request — the "fake resolver" test of the specification. -/
def revSched : Nat → Nat → List Nat → List Nat := fun _ _ l => l.reverse

/-- The declared-order (identity) completion schedule. -/
def idSched : Nat → Nat → List Nat → List Nat := fun _ _ l => l

/-- Fixture for the transport-failure scenario: root `100` declares children
`[10, 20, 30]`; `10` and `30` resolve to live leaf comments; `20` raises a
transport error; everything else is a 404. -/
def env100 : Upstream := fun n =>
  if n = 100 then .ok ⟨100, some "comment", some "op", some "", some 5, [10, 20, 30], false, false⟩
  else if n = 10 then .ok ⟨10, some "comment", some "bob", some "", some 6, [], false, false⟩
  else if n = 30 then .ok ⟨30, some "comment", some "carol", some "", some 7, [], false, false⟩
  else if n = 20 then .err
  else .badStatus

/-- An upstream that answers every request with a non-200 status. -/
def envBadStatus : Upstream := fun _ => .badStatus

/-- A live comment item with missing `by`, `text` and `time` fields and one
declared child. -/
def itemBare : Item := ⟨3, some "comment", none, none, none, [4], false, false⟩

/-- An upstream serving `itemBare` at id 3 (its declared child 4 is a 404). -/
def envBare : Upstream := fun n => if n = 3 then .ok itemBare else .badStatus

/-- A five-entry forest: two top-level trees carrying three and two nodes. -/
def exForest5 : List CommentNode :=
  [.mk 1 "a" "x" 0 [.mk 2 "b" "y" 0 [], .mk 3 "c" "z" 0 []],
   .mk 4 "d" "w" 0 [.mk 5 "e" "v" 0 []]]

/-- A single-comment forest whose rendered text is far longer than 50
characters. -/
def exForestLong : List CommentNode :=
  [.mk 9 "verbose" "0123456789012345678901234567890123456789012345678901234567890123456789" 0 []]

/-- A single-entry forest. -/
def exForest1 : List CommentNode := [.mk 1 "a" "x" 0 []]

/-- Strategy 3 of the HN-local chain (braces-only span). -/
def strategy_span_hn (text : String) : Option JValue :=
  (searchJsonSpanHn text.data).bind (fun span => json_loads (String.mk span))

/-- The item `env100` serves at id 10. -/
def itm10 : Item := ⟨10, some "comment", some "bob", some "", some 6, [], false, false⟩

/-- A post item whose top-level kids are the `env100` children. -/
def post100 : Item := ⟨100, some "story", some "op", none, some 5, [10, 20, 30], false, false⟩

/-- A Reddit `t1` thing with one nested reply. -/
def rt1 : RThing :=
  .mk (some "t1") (some "c1") (some "ann") (some "hello") (some 11)
    (some [.mk (some "t1") (some "c2") (some "ben") (some "yo") (some 12) none])

/-! ## Helper lemmas -/

/-- Looking up `kid` after folding the completion order into the results dict:
the latest (hence any, since `f` is a function) successful insertion wins;
ids never completed fall back to the initial dict. -/
theorem lookup_foldl_gather (f : Nat → Except Unit (Option CommentNode)) :
    ∀ (order : List Nat) (m : List (Nat × CommentNode)) (kid : Nat),
      (order.foldl (fun m kid =>
        match f kid with
        | .ok (some c) => (kid, c) :: m
        | _ => m) m).lookup kid
      = if kid ∈ order ∧ (exceptToOption (f kid)).isSome
        then exceptToOption (f kid) else m.lookup kid := by
  intro order
  induction order with
  | nil => intro m kid; simp
  | cons k rest ih =>
    intro m kid
    rw [List.foldl_cons, ih]
    by_cases hk : k = kid
    · subst hk
      cases hfk : f k with
      | error e =>
        simp [exceptToOption, hfk]
      | ok o =>
        cases o with
        | none => simp [exceptToOption, hfk]
        | some c =>
          by_cases hmem : k ∈ rest <;>
            simp [exceptToOption, hfk, hmem, List.lookup_cons_self]
    · have hbeq : (kid == k) = false := by
        simp only [beq_eq_false_iff_ne, ne_eq]
        exact fun h => hk h.symm
      have hlk : ∀ (c : CommentNode) (m' : List (Nat × CommentNode)),
          ((k, c) :: m').lookup kid = m'.lookup kid := by
        intro c m'; simp [List.lookup_cons, hbeq]
      have hcond : (kid ∈ k :: rest ∧ (exceptToOption (f kid)).isSome = true)
          ↔ (kid ∈ rest ∧ (exceptToOption (f kid)).isSome = true) := by
        constructor
        · rintro ⟨hm, hs⟩
          rcases List.mem_cons.mp hm with h | h
          · exact absurd h.symm hk
          · exact ⟨h, hs⟩
        · rintro ⟨hm, hs⟩; exact ⟨List.mem_cons_of_mem _ hm, hs⟩
      cases hfk : f k with
      | error e =>
        simp only [hfk]
        exact (if_congr hcond rfl rfl).symm
      | ok o =>
        cases o with
        | none =>
          simp only [hfk]
          exact (if_congr hcond rfl rfl).symm
        | some c =>
          simp only [hfk]
          rw [hlk]
          exact (if_congr hcond rfl rfl).symm

/-- A completed id's entry in the results dict is exactly its fetch outcome. -/
theorem lookup_gatherResults (f : Nat → Except Unit (Option CommentNode))
    (order : List Nat) (kid : Nat) (hmem : kid ∈ order) :
    (gatherResults f order).lookup kid = exceptToOption (f kid) := by
  unfold gatherResults
  rw [lookup_foldl_gather]
  by_cases hs : (exceptToOption (f kid)).isSome
  · simp [hmem, hs]
  · rw [if_neg (fun h => hs h.2)]
    simp only [List.lookup_nil]
    cases ho : exceptToOption (f kid)
    · rfl
    · exact absurd (by simp [ho]) hs

/-- Reassembling through the results dict equals declared-order filtering, for
any completion order that is a permutation of the declared ids. -/
theorem assemble_eq (f g : Nat → Except Unit (Option CommentNode))
    (kids order : List Nat) (hperm : List.Perm order kids)
    (hfg : ∀ kid, f kid = g kid) :
    kids.filterMap (fun kid => (gatherResults f order).lookup kid)
      = kids.filterMap (fun kid => exceptToOption (g kid)) := by
  apply List.filterMap_congr
  intro kid hkid
  rw [lookup_gatherResults f order kid (hperm.mem_iff.mpr hkid), hfg]

/-- `fetchNode` only looks at its child-fetching function through the declared
kid list. -/
theorem fetchNode_congr (env : Upstream) (pipeline : String → String)
    (item_id : Nat) (g1 g2 : List Nat → List CommentNode)
    (h : ∀ kids, g1 kids = g2 kids) :
    fetchNode env pipeline item_id g1 = fetchNode env pipeline item_id g2 := by
  unfold fetchNode
  cases fetch_item env item_id with
  | error e => rfl
  | ok o =>
    cases o with
    | none => rfl
    | some item =>
      by_cases ht : item.type = some "comment"
      · simp only [ht, if_pos]
        cases item.kids with
        | nil => rfl
        | cons a l => simp [h]
      · simp [ht]

/-- Core schedule-independence result: for every completion schedule that is a
permutation of each fan-out point's declared kid list, the concurrent tree
fetcher computes the declared-order result. -/
theorem fetch_sched_eq_declared (env : Upstream) (pipeline : String → String)
    (sched : Nat → Nat → List Nat → List Nat)
    (hsched : ∀ pid d l, List.Perm (sched pid d l) l) :
    ∀ fuel item_id, fetch_comment_tree env pipeline sched item_id fuel
      = fetch_comment_tree_declared env pipeline item_id fuel := by
  intro fuel
  induction fuel with
  | zero => intro item_id; rfl
  | succ f ih =>
    intro item_id
    simp only [fetch_comment_tree, fetch_comment_tree_declared]
    apply fetchNode_congr
    intro kids
    exact assemble_eq _ _ kids (sched item_id (f + 1) kids)
      (hsched item_id (f + 1) kids) ih

/-- Forest-level schedule independence: `collect_all_comments` computes the
declared-order filtered trees for any completion order of the root fetches. -/
theorem collect_eq_declared (env : Upstream) (pipeline : String → String)
    (sched : Nat → Nat → List Nat → List Nat) (rootOrder : List Nat) (post : Item)
    (hsched : ∀ pid d l, List.Perm (sched pid d l) l)
    (hperm : List.Perm rootOrder post.kids) :
    collect_all_comments env pipeline sched rootOrder post
      = post.kids.filterMap (fun kid =>
          exceptToOption (fetch_comment_tree_declared env pipeline kid 50)) := by
  unfold collect_all_comments
  cases hk : post.kids with
  | nil => simp
  | cons a l =>
    rw [hk] at hperm
    exact assemble_eq _ _ (a :: l) rootOrder hperm
      (fun kid => fetch_sched_eq_declared env pipeline sched hsched 50 kid)

/-- A live childless comment resolves to the same leaf node at every depth
budget. -/
theorem declared_leaf (env : Upstream) (pipeline : String → String)
    (item_id : Nat) (item : Item) (henv : env item_id = .ok item)
    (hd : item.dead = false) (hdel : item.deleted = false)
    (ht : item.type = some "comment") (hk : item.kids = []) :
    ∀ fuel, fetch_comment_tree_declared env pipeline item_id fuel
      = .ok (some (.mk item.id (item.by_.getD "[deleted]")
          (clean_html pipeline (item.text.getD "")) (item.time.getD 0) [])) := by
  intro fuel
  cases fuel <;>
    simp [fetch_comment_tree_declared, fetchNode, fetch_item, henv, hd, hdel, ht, hk]

/-- A transport error at the root propagates out of the tree fetcher at every
depth budget. -/
theorem declared_err (env : Upstream) (pipeline : String → String)
    (item_id : Nat) (henv : env item_id = .err) :
    ∀ fuel, fetch_comment_tree_declared env pipeline item_id fuel = .error () := by
  intro fuel
  cases fuel <;> simp [fetch_comment_tree_declared, fetchNode, fetch_item, henv]

/-! ## Claim theorems -/

/-- C1: for every declared child-identifier list (and declared top-level root
list) and every completion order of the concurrently scheduled fetches (any
per-fan-out-point permutation of the submitted ids), the resulting children
(resp. forest roots) are exactly the declared ids' successful results in
declared order: the concurrent fetcher equals the declared-order fetcher, any
two valid schedules agree, and `collect_all_comments` projects the declared
root list through the successful results. -/
theorem C1_order_from_declared_ids (env : Upstream) (pipeline : String → String)
    (sched : Nat → Nat → List Nat → List Nat)
    (hsched : ∀ pid d l, List.Perm (sched pid d l) l) :
    (∀ item_id fuel, fetch_comment_tree env pipeline sched item_id fuel
        = fetch_comment_tree_declared env pipeline item_id fuel)
    ∧ (∀ sched', (∀ pid d l, List.Perm (sched' pid d l) l) →
        ∀ item_id fuel, fetch_comment_tree env pipeline sched item_id fuel
          = fetch_comment_tree env pipeline sched' item_id fuel)
    ∧ (∀ rootOrder post, List.Perm rootOrder post.kids →
        collect_all_comments env pipeline sched rootOrder post
          = post.kids.filterMap (fun kid =>
              exceptToOption (fetch_comment_tree_declared env pipeline kid 50))) := by
  refine ⟨fun item_id fuel => fetch_sched_eq_declared env pipeline sched hsched fuel item_id,
    fun sched' hsched' item_id fuel => ?_,
    fun rootOrder post hperm => collect_eq_declared env pipeline sched rootOrder post hsched hperm⟩
  rw [fetch_sched_eq_declared env pipeline sched hsched fuel item_id,
    fetch_sched_eq_declared env pipeline sched' hsched' fuel item_id]

/-- C1 at a concrete input: a schedule completing every fan-out point in reverse
request order yields the declared-order result on the `env100` fixture. -/
theorem C1_order_from_declared_ids_witness :
    (∀ pid d l, List.Perm (revSched pid d l) l)
    ∧ fetch_comment_tree env100 id revSched 100 50
        = fetch_comment_tree_declared env100 id 100 50
    ∧ List.Perm [30, 20, 10] post100.kids
    ∧ collect_all_comments env100 id revSched [30, 20, 10] post100
        = post100.kids.filterMap (fun kid =>
            exceptToOption (fetch_comment_tree_declared env100 id kid 50)) :=
  ⟨fun _ _ l => List.reverse_perm l,
    (C1_order_from_declared_ids env100 id revSched (fun _ _ l => List.reverse_perm l)).1 100 50,
    by decide,
    (C1_order_from_declared_ids env100 id revSched
      (fun _ _ l => List.reverse_perm l)).2.2 [30, 20, 10] post100 (by decide)⟩

/-- C2: with root 100 declaring children `[10, 20, 30]` and the fetch of 20
failing with a transport error, the tree fetcher still returns the root with
children exactly `[subtree 10, subtree 30]` in that order, for every completion
schedule and every positive depth budget. -/
theorem C2_child_transport_failure_dropped (pipeline : String → String)
    (sched : Nat → Nat → List Nat → List Nat) (f : Nat)
    (hsched : ∀ pid d l, List.Perm (sched pid d l) l) :
    fetch_comment_tree env100 pipeline sched 100 (f + 1)
      = .ok (some (.mk 100 "op" "" 5
          [.mk 10 "bob" "" 6 [], .mk 30 "carol" "" 7 []])) := by
  rw [fetch_sched_eq_declared env100 pipeline sched hsched]
  have h10 := declared_leaf env100 pipeline 10
    ⟨10, some "comment", some "bob", some "", some 6, [], false, false⟩ rfl rfl rfl rfl rfl f
  have h30 := declared_leaf env100 pipeline 30
    ⟨30, some "comment", some "carol", some "", some 7, [], false, false⟩ rfl rfl rfl rfl rfl f
  have h20 := declared_err env100 pipeline 20 rfl f
  simp [fetch_comment_tree_declared, fetchNode, fetch_item,
    show env100 100 = .ok ⟨100, some "comment", some "op", some "", some 5,
      [10, 20, 30], false, false⟩ from rfl,
    List.filterMap, h10, h20, h30, exceptToOption, clean_html]

/-- C2 at a concrete input: the reverse-completion schedule at depth budget 50. -/
theorem C2_child_transport_failure_dropped_witness :
    (∀ pid d l, List.Perm (revSched pid d l) l)
    ∧ fetch_comment_tree env100 id revSched 100 50
        = .ok (some (.mk 100 "op" "" 5
            [.mk 10 "bob" "" 6 [], .mk 30 "carol" "" 7 []])) :=
  ⟨fun _ _ l => List.reverse_perm l,
    C2_child_transport_failure_dropped id revSched 49 (fun _ _ l => List.reverse_perm l)⟩

/-- A live comment item makes `fetchNode` produce a node with the `dict.get`
defaults, independent of how the children turn out. -/
theorem fetchNode_live (env : Upstream) (pipeline : String → String)
    (item_id : Nat) (item : Item) (g : List Nat → List CommentNode)
    (henv : env item_id = .ok item) (hd : item.dead = false)
    (hdel : item.deleted = false) (ht : item.type = some "comment") :
    fetchNode env pipeline item_id g
      = .ok (some (.mk item.id (item.by_.getD "[deleted]")
          (clean_html pipeline (item.text.getD "")) (item.time.getD 0)
          (match item.kids with
           | [] => []
           | kids => g kids))) := by
  unfold fetchNode fetch_item
  rw [henv]
  simp [hd, hdel, ht]

/-- C3: when the root resolves (live comment item), `fetch_comment_tree` at
depth budget 0 returns a leaf (empty child list) even if the item declares
children; moreover the depth-0 result depends only on the root's own upstream
response (no child fetch, any schedule), and the Reddit `parse_comment` at
`max_depth = 0` likewise never builds children. -/
theorem C3_depth_zero_is_leaf :
    (∀ (env : Upstream) (pipeline : String → String)
        (sched : Nat → Nat → List Nat → List Nat) (item_id : Nat) (item : Item),
        env item_id = .ok item → item.dead = false → item.deleted = false →
        item.type = some "comment" →
        fetch_comment_tree env pipeline sched item_id 0
          = .ok (some (.mk item.id (item.by_.getD "[deleted]")
              (clean_html pipeline (item.text.getD "")) (item.time.getD 0) [])))
    ∧ (∀ (env env' : Upstream) (pipeline : String → String)
        (sched sched' : Nat → Nat → List Nat → List Nat) (item_id : Nat),
        env item_id = env' item_id →
        fetch_comment_tree env pipeline sched item_id 0
          = fetch_comment_tree env' pipeline sched' item_id 0)
    ∧ (∀ (thing : RThing) (c : RComment),
        parse_comment thing 0 = some c → c.children = []) := by
  refine ⟨fun env pipeline sched item_id item henv hd hdel ht => ?_,
    fun env env' pipeline sched sched' item_id henv => ?_,
    fun thing c h => ?_⟩
  · rw [show fetch_comment_tree env pipeline sched item_id 0
        = fetchNode env pipeline item_id (fun _ => []) from rfl,
      fetchNode_live env pipeline item_id item _ henv hd hdel ht]
    cases item.kids <;> rfl
  · have hfi : fetch_item env item_id = fetch_item env' item_id := by
      unfold fetch_item; rw [henv]
    show fetchNode env pipeline item_id _ = fetchNode env' pipeline item_id _
    unfold fetchNode
    rw [hfi]
  · have h' : parseRNode thing (fun _ => []) = some c := h
    unfold parseRNode at h'
    by_cases h1 : thing.kind ≠ some "t1"
    · simp [h1] at h'
    · by_cases h2 : thing.body = some "[deleted]" ∨ thing.body = some "[removed]"
      · simp [h1, h2] at h'
      · simp only [h1, h2, if_neg, if_false, ite_false, Option.some.injEq] at h'
        rw [← h']
        cases htr : thing.replies <;> simp [htr, RComment.children]

/-- C3 at a concrete input: `env100` serves a live leaf comment at id 10, and a
concrete Reddit thing with a declared reply parses to a childless comment at
depth 0. -/
theorem C3_depth_zero_is_leaf_witness :
    (env100 10 = .ok itm10
      ∧ fetch_comment_tree env100 id idSched 10 0 = .ok (some (.mk 10 "bob" "" 6 [])))
    ∧ (parse_comment rt1 0 = some (.mk "c1" "ann" "hello" 11 [])
      ∧ (RComment.mk "c1" "ann" "hello" 11 []).children = []) :=
  ⟨⟨rfl, C3_depth_zero_is_leaf.1 env100 id idSched 10 itm10 rfl rfl rfl rfl⟩,
    ⟨rfl, C3_depth_zero_is_leaf.2.2 rt1 (.mk "c1" "ann" "hello" 11 []) rfl⟩⟩

/-- The tree fetcher returns absent exactly under `hn_absent` (any child
function). -/
theorem fetchNode_absent_iff (env : Upstream) (pipeline : String → String)
    (item_id : Nat) (g : List Nat → List CommentNode) :
    (fetchNode env pipeline item_id g = .ok none ↔ hn_absent env item_id = true) := by
  unfold fetchNode fetch_item hn_absent
  cases henv : env item_id with
  | err => simp
  | badStatus => simp
  | empty => simp
  | ok item =>
    by_cases ht : item.type = some "comment" <;>
      cases hd : item.dead <;> cases hdel : item.deleted <;>
        simp [hd, hdel, ht, bne_iff_ne]

/-- The tree fetcher raises exactly when the root's upstream response is a
transport error (any child function). -/
theorem fetchNode_err_iff (env : Upstream) (pipeline : String → String)
    (item_id : Nat) (g : List Nat → List CommentNode) :
    (fetchNode env pipeline item_id g = .error () ↔ env item_id = .err) := by
  unfold fetchNode fetch_item
  cases henv : env item_id with
  | err => simp
  | badStatus => simp
  | empty => simp
  | ok item =>
    by_cases ht : item.type = some "comment" <;>
      cases hd : item.dead <;> cases hdel : item.deleted <;>
        simp [hd, hdel, ht]

/-- `parse_comment` rejects exactly non-`t1` things and filtered bodies (any
depth budget). -/
theorem parseRNode_none_iff (thing : RThing) (g : List RThing → List RComment) :
    (parseRNode thing g = none
      ↔ (thing.kind ≠ some "t1"
          ∨ thing.body = some "[deleted]" ∨ thing.body = some "[removed]")) := by
  unfold parseRNode
  by_cases h1 : thing.kind ≠ some "t1"
  · simp [h1]
  · by_cases h2 : thing.body = some "[deleted]" ∨ thing.body = some "[removed]"
    · rcases h2 with h2 | h2 <;> simp [h1, h2]
    · push_neg at h2
      simp [h1, h2.1, h2.2]

/-- C4 (amended): the resolver outcome of the tree fetcher is absent (`.ok
none`, not an error) exactly when the HTTP status is non-200, the response body
is empty/falsy, the item is dead or deleted, or the item type is not a comment
(`hn_absent`); it propagates an error exactly when the upstream raises a
transport exception; absence is decided by the root's response alone — the
result is then `.ok none` at every depth budget and schedule, so no recursion
into children occurs; and on the Reddit side `parse_comment` yields absent
exactly for non-`t1` things and `"[deleted]"`/`"[removed]"` bodies. -/
theorem C4_absent_conditions_amended :
    (∀ (env : Upstream) (pipeline : String → String)
        (sched : Nat → Nat → List Nat → List Nat) (item_id fuel : Nat),
        (fetch_comment_tree env pipeline sched item_id fuel = .ok none
          ↔ hn_absent env item_id = true))
    ∧ (∀ (env : Upstream) (pipeline : String → String)
        (sched : Nat → Nat → List Nat → List Nat) (item_id fuel : Nat),
        (fetch_comment_tree env pipeline sched item_id fuel = .error ()
          ↔ env item_id = .err))
    ∧ (∀ (thing : RThing) (d : Nat),
        (parse_comment thing d = none
          ↔ (thing.kind ≠ some "t1"
              ∨ thing.body = some "[deleted]" ∨ thing.body = some "[removed]"))) := by
  refine ⟨fun env pipeline sched item_id fuel => ?_,
    fun env pipeline sched item_id fuel => ?_, fun thing d => ?_⟩
  · cases fuel with
    | zero => exact fetchNode_absent_iff env pipeline item_id _
    | succ f => exact fetchNode_absent_iff env pipeline item_id _
  · cases fuel with
    | zero => exact fetchNode_err_iff env pipeline item_id _
    | succ f => exact fetchNode_err_iff env pipeline item_id _
  · cases d with
    | zero => exact parseRNode_none_iff thing _
    | succ d' => exact parseRNode_none_iff thing _

/-- C4 counterexample: a non-200 HTTP status makes the resolver return absent
(`None`), although it is not among the claim's absent conditions — the
specification classifies a non-OK status as a propagating transport failure. -/
theorem C4_absent_conditions_counterexample :
    fetch_item envBadStatus 7 = .ok none
    ∧ envBadStatus 7 = .badStatus
    ∧ spec_absent_cond envBadStatus 7 = false
    ∧ fetch_comment_tree envBadStatus id idSched 7 50 = .ok none :=
  ⟨rfl, rfl, rfl, rfl⟩

/-- C10: a successfully fetched live comment-typed item always yields a node
(never absent), whose author defaults to `"[deleted]"`, text to the cleaned
`""` (which is `""`), and time to `0` when the fields are missing — in
particular an empty body does not prune the node. -/
theorem C10_live_comment_never_absent :
    ∀ (env : Upstream) (pipeline : String → String)
      (sched : Nat → Nat → List Nat → List Nat) (item_id fuel : Nat) (item : Item),
      env item_id = .ok item → item.dead = false → item.deleted = false →
      item.type = some "comment" →
      (∃ children, fetch_comment_tree env pipeline sched item_id fuel
          = .ok (some (.mk item.id (item.by_.getD "[deleted]")
              (clean_html pipeline (item.text.getD "")) (item.time.getD 0) children)))
      ∧ clean_html pipeline "" = "" := by
  intro env pipeline sched item_id fuel item henv hd hdel ht
  refine ⟨?_, rfl⟩
  cases fuel with
  | zero => exact ⟨_, fetchNode_live env pipeline item_id item _ henv hd hdel ht⟩
  | succ f => exact ⟨_, fetchNode_live env pipeline item_id item _ henv hd hdel ht⟩

/-- C10 at a concrete input: a live comment with missing author, body and
timestamp is kept with the documented defaults. -/
theorem C10_live_comment_never_absent_witness :
    envBare 3 = .ok itemBare
    ∧ ((∃ children, fetch_comment_tree envBare id idSched 3 1
          = .ok (some (.mk itemBare.id (itemBare.by_.getD "[deleted]")
              (clean_html id (itemBare.text.getD "")) (itemBare.time.getD 0) children)))
        ∧ clean_html id "" = "") :=
  ⟨rfl, C10_live_comment_never_absent envBare id idSched 3 1 itemBare rfl rfl rfl rfl⟩

/-! ## Flattener lemmas -/

theorem flatMap_congr_mem {α β : Type} {l : List α} {f g : α → List β}
    (h : ∀ a ∈ l, f a = g a) : l.flatMap f = l.flatMap g := by
  induction l with
  | nil => rfl
  | cons a l ih =>
    simp only [List.flatMap_cons, h a (List.mem_cons_self a l),
      ih (fun b hb => h b (List.mem_cons_of_mem a hb))]

theorem nodeCount_le_of_mem {c : CommentNode} :
    ∀ {cs : List CommentNode}, c ∈ cs → nodeCount c ≤ nodeCountList cs := by
  intro cs
  induction cs with
  | nil => intro h; cases h
  | cons a l ih =>
    intro h
    rcases List.mem_cons.mp h with h | h
    · subst h; simp only [nodeCountList]; omega
    · have := ih h; simp only [nodeCountList]; omega

theorem nodeCount_pos (t : CommentNode) : 1 ≤ nodeCount t := by
  cases t with
  | mk i b x tm cs => simp only [nodeCount]; omega

/-- Induction over comment trees with the induction hypothesis available for all
children. -/
theorem commentNode_ind (P : CommentNode → Prop)
    (h : ∀ i b x tm children, (∀ c ∈ children, P c) → P (.mk i b x tm children)) :
    ∀ t, P t := by
  have key : ∀ n t, nodeCount t ≤ n → P t := by
    intro n
    induction n with
    | zero =>
      intro t hle
      exact absurd hle (by have := nodeCount_pos t; omega)
    | succ n ih =>
      intro t hle
      cases t with
      | mk i b x tm cs =>
        apply h
        intro c hc
        apply ih
        have h1 : nodeCount c ≤ nodeCountList cs := nodeCount_le_of_mem hc
        have h2 : nodeCount (CommentNode.mk i b x tm cs) = 1 + nodeCountList cs := by
          simp only [nodeCount]
        omega
  intro t
  exact key (nodeCount t) t le_rfl

theorem flatten_children_eq_flatMap (cs : List CommentNode) (d : Nat) :
    flatten_children cs d = cs.flatMap (fun c => flatten_comments c d) := by
  induction cs with
  | nil => simp [flatten_children]
  | cons c cs ih => simp [flatten_children, ih]

/-- The pre-order equation: a node's entry comes first, immediately followed by
the whole flattened subtree of each child in declared sibling order. -/
theorem flatten_comments_eq (t : CommentNode) (d : Nat) :
    flatten_comments t d
      = ⟨t.by_, t.text, d⟩ :: t.children.flatMap (fun c => flatten_comments c (d + 1)) := by
  cases t with
  | mk i b x tm cs =>
    simp [flatten_comments, flatten_children_eq_flatMap,
      CommentNode.by_, CommentNode.text, CommentNode.children]

/-- Flattening commutes with a uniform depth shift: depths are purely relative
to the starting depth, so each entry's depth is its parent's plus one. -/
theorem flatten_comments_shift (t : CommentNode) :
    ∀ d k : Nat, flatten_comments t (d + k)
      = (flatten_comments t d).map (fun e => ⟨e.by_, e.text, e.depth + k⟩) := by
  induction t using commentNode_ind with
  | h i b x tm children ih =>
    intro d k
    simp only [flatten_comments, List.map_cons]
    rw [flatten_children_eq_flatMap, flatten_children_eq_flatMap, List.map_flatMap]
    refine congrArg₂ _ rfl ?_
    apply flatMap_congr_mem
    intro c hc
    rw [show d + k + 1 = (d + 1) + k by omega, ih c hc (d + 1) k]

/-- Pre-order flattening lists every node exactly once. -/
theorem flatten_comments_length (t : CommentNode) :
    ∀ d, (flatten_comments t d).length = nodeCount t := by
  induction t using commentNode_ind with
  | h i b x tm children ih =>
    intro d
    have hlist : ∀ (cs : List CommentNode),
        (∀ c ∈ cs, ∀ d', (flatten_comments c d').length = nodeCount c) →
        ∀ d', (flatten_children cs d').length = nodeCountList cs := by
      intro cs
      induction cs with
      | nil => intro _ _; simp [flatten_children, nodeCountList]
      | cons a l ihl =>
        intro hmem d'
        simp [flatten_children, nodeCountList, hmem a (List.mem_cons_self a l) d',
          ihl (fun c hc => hmem c (List.mem_cons_of_mem a hc)) d']
    simp only [flatten_comments, List.length_cons, nodeCount, hlist children ih (d + 1)]
    omega

/-- Every entry of a subtree flattened from depth `d` has depth at least `d`. -/
theorem flatten_comments_depth_ge (t : CommentNode) :
    ∀ (d : Nat) (e : FlatEntry), e ∈ flatten_comments t d → d ≤ e.depth := by
  induction t using commentNode_ind with
  | h i b x tm children ih =>
    intro d e he
    simp only [flatten_comments] at he
    rcases List.mem_cons.mp he with he | he
    · subst he; exact le_rfl
    · rw [flatten_children_eq_flatMap] at he
      rcases List.mem_flatMap.mp he with ⟨c, hc, hce⟩
      have := ih c hc (d + 1) e hce
      omega

/-- C6: `flatten` is the depth-first pre-order traversal — forest roots start at
depth 0; a node's entry is immediately followed by its children's complete
flattened blocks in sibling order (so all descendants are contiguous before any
sibling subtree); depths are relative (each child block is the depth-0 flatten
shifted up, so every entry's depth is 1 plus its parent's); every node appears
exactly once; and no entry's depth undercuts its subtree root's depth. -/
theorem C6_flatten_is_preorder :
    (∀ F : List CommentNode, flatten_forest F = F.flatMap (fun t => flatten_comments t 0))
    ∧ (∀ (t : CommentNode) (d : Nat),
        flatten_comments t d
          = ⟨t.by_, t.text, d⟩ :: t.children.flatMap (fun c => flatten_comments c (d + 1)))
    ∧ (∀ (t : CommentNode) (d k : Nat),
        flatten_comments t (d + k)
          = (flatten_comments t d).map (fun e => ⟨e.by_, e.text, e.depth + k⟩))
    ∧ (∀ (t : CommentNode) (d : Nat), (flatten_comments t d).length = nodeCount t)
    ∧ (∀ (t : CommentNode) (d : Nat) (e : FlatEntry),
        e ∈ flatten_comments t d → d ≤ e.depth) :=
  ⟨fun _ => rfl, flatten_comments_eq,
    fun t d k => flatten_comments_shift t d k,
    fun t d => flatten_comments_length t d,
    fun t d e he => flatten_comments_depth_ge t d e he⟩

/-- C6 at a concrete input: the child entry of a two-node tree sits at depth 1,
directly after its parent. -/
theorem C6_flatten_is_preorder_witness :
    (⟨"b", "y", 1⟩ : FlatEntry) ∈ flatten_comments (.mk 1 "a" "x" 0 [.mk 2 "b" "y" 0 []]) 0
    ∧ 0 ≤ (FlatEntry.mk "b" "y" 1).depth :=
  ⟨by decide,
    C6_flatten_is_preorder.2.2.2.2 (.mk 1 "a" "x" 0 [.mk 2 "b" "y" 0 []]) 0
      ⟨"b", "y", 1⟩ (by decide)⟩

/-! ## Renderer lemmas -/

/-- The inner rendering loop emits exactly the first `maxc - count` entries of
the tree's flattened list and advances the counter by the number emitted. -/
theorem ctt_inner_eq : ∀ (flat : List FlatEntry) (count maxc : Nat),
    ctt_inner flat count maxc
      = (lines_of (flat.take (maxc - count)), count + min (maxc - count) flat.length) := by
  intro flat
  induction flat with
  | nil => intro count maxc; simp [ctt_inner, lines_of]
  | cons c rest ih =>
    intro count maxc
    by_cases hge : count ≥ maxc
    · have h0 : maxc - count = 0 := by omega
      simp [ctt_inner, hge, h0, lines_of]
    · have h1 : maxc - count = (maxc - (count + 1)) + 1 := by omega
      simp only [ctt_inner, if_neg hge, ih (count + 1) maxc, Prod.mk.injEq]
      constructor
      · rw [h1, List.take_succ_cons]
        simp [lines_of]
      · rw [h1, List.length_cons, Nat.succ_min_succ]
        omega

/-- The outer rendering loop emits exactly the first `maxc - count` entries of
the whole forest's flattened sequence. -/
theorem ctt_outer_eq : ∀ (ts : List CommentNode) (count maxc : Nat),
    ctt_outer ts count maxc
      = lines_of ((ts.flatMap (fun t => flatten_comments t 0)).take (maxc - count)) := by
  intro ts
  induction ts with
  | nil => intro count maxc; simp [ctt_outer, lines_of]
  | cons t ts ih =>
    intro count maxc
    simp only [ctt_outer, ctt_inner_eq, List.flatMap_cons]
    by_cases hge : count + min (maxc - count) (flatten_comments t 0).length ≥ maxc
    · rw [if_pos hge]
      have hlen : maxc - count ≤ (flatten_comments t 0).length := by
        rcases Nat.le_total (maxc - count) (flatten_comments t 0).length with h | h
        · exact h
        · have hm : min (maxc - count) (flatten_comments t 0).length
              = (flatten_comments t 0).length := Nat.min_eq_right h
          omega
      rw [List.take_append_eq_append_take,
        Nat.sub_eq_zero_of_le hlen, List.take_zero, List.append_nil]
    · rw [if_neg hge]
      push_neg at hge
      have hmin : min (maxc - count) (flatten_comments t 0).length
          = (flatten_comments t 0).length := by
        rcases Nat.le_total (maxc - count) (flatten_comments t 0).length with h | h
        · exfalso; rw [Nat.min_eq_left h] at hge; omega
        · exact Nat.min_eq_right h
      have hlen : (flatten_comments t 0).length ≤ maxc - count := by
        have := Nat.min_le_left (maxc - count) (flatten_comments t 0).length
        omega
      rw [ih, hmin, List.take_append_eq_append_take, List.take_of_length_le hlen]
      have harith : maxc - (count + (flatten_comments t 0).length)
          = maxc - count - (flatten_comments t 0).length := by omega
      rw [harith]
      simp [lines_of, List.flatMap_append]

/-- `comments_to_text` renders exactly the first `max_comments` entries of the
flattened forest, then applies the character limit to the joined text. -/
theorem comments_to_text_take (comments : List CommentNode) (maxE maxC : Nat) :
    comments_to_text comments maxE maxC
      = render_entries ((flatten_forest comments).take maxE) maxC := by
  unfold comments_to_text render_entries flatten_forest
  rw [ctt_outer_eq, Nat.sub_zero]

/-- C7: the rendered entries are exactly the first `maxEntries` entries of the
forest's flattened sequence (counted across trees), selected before the
character limit is applied; on the five-entry fixture with `maxEntries = 2` and
a large `maxChars`, exactly the first two entry blocks appear and no truncation
marker is emitted. -/
theorem C7_entry_limit_before_char_limit :
    (∀ (comments : List CommentNode) (maxE maxC : Nat),
        comments_to_text comments maxE maxC
          = render_entries ((flatten_forest comments).take maxE) maxC)
    ∧ (flatten_forest exForest5).length = 5
    ∧ (flatten_forest exForest5).take 2 = [⟨"a", "x", 0⟩, ⟨"b", "y", 1⟩]
    ∧ comments_to_text exForest5 2 10000 = "[a]: x\n\n  [b]: y\n"
    ∧ trunc_marker.data.isSuffixOf (comments_to_text exForest5 2 10000).data = false :=
  ⟨comments_to_text_take, by decide, by decide, by decide, by decide⟩

/-- C8: when the joined text exceeds `maxChars` code points, the result is its
first `maxChars` code points followed by the exact truncation marker (hence has
length `maxChars` plus the marker length and ends with
`"[...comments truncated...]"`); otherwise the text is returned unchanged. -/
theorem C8_char_truncation :
    ∀ (comments : List CommentNode) (maxE maxC : Nat),
      ((rendered_lines_text comments maxE).length > maxC →
        (comments_to_text comments maxE maxC).data
            = (rendered_lines_text comments maxE).take maxC ++ trunc_marker.data
          ∧ (comments_to_text comments maxE maxC).data.length
              = maxC + trunc_marker.data.length
          ∧ ("[...comments truncated...]".data) <:+ (comments_to_text comments maxE maxC).data)
      ∧ ((rendered_lines_text comments maxE).length ≤ maxC →
          (comments_to_text comments maxE maxC).data = rendered_lines_text comments maxE) := by
  intro comments maxE maxC
  constructor
  · intro hgt
    have heq : comments_to_text comments maxE maxC
        = ⟨(rendered_lines_text comments maxE).take maxC ++ trunc_marker.data⟩ := by
      show (if (rendered_lines_text comments maxE).length > maxC
          then (⟨(rendered_lines_text comments maxE).take maxC ++ trunc_marker.data⟩ : String)
          else ⟨rendered_lines_text comments maxE⟩)
        = ⟨(rendered_lines_text comments maxE).take maxC ++ trunc_marker.data⟩
      rw [if_pos hgt]
    refine ⟨by rw [heq], ?_, ?_⟩
    · rw [heq]
      simp only [List.length_append, List.length_take]
      have : min maxC (rendered_lines_text comments maxE).length = maxC :=
        Nat.min_eq_left (le_of_lt hgt)
      omega
    · rw [heq]
      show ("[...comments truncated...]".data) <:+ _ ++ trunc_marker.data
      rw [show trunc_marker.data
          = ['\n', '\n'] ++ ("[...comments truncated...]".data) from rfl,
        ← List.append_assoc]
      exact List.suffix_append _ _
  · intro hle
    show (if (rendered_lines_text comments maxE).length > maxC
        then (⟨(rendered_lines_text comments maxE).take maxC ++ trunc_marker.data⟩ : String)
        else ⟨rendered_lines_text comments maxE⟩).data
      = rendered_lines_text comments maxE
    rw [if_neg (by omega)]

/-- C8 at a concrete input: a 70-character single entry rendered with
`maxChars = 50`. -/
theorem C8_char_truncation_witness :
    (rendered_lines_text exForestLong 1000).length > 50
    ∧ ((comments_to_text exForestLong 1000 50).data
          = (rendered_lines_text exForestLong 1000).take 50 ++ trunc_marker.data
        ∧ (comments_to_text exForestLong 1000 50).data.length
            = 50 + trunc_marker.data.length
        ∧ ("[...comments truncated...]".data) <:+ (comments_to_text exForestLong 1000 50).data) :=
  ⟨by decide, (C8_char_truncation exForestLong 1000 50).1 (by decide)⟩

/-- The `"\n".join` of the emitted lines equals the concatenation of the spec's
per-entry blocks `"{indent}[{author}]: {body}\n\n"` with the final character
removed: the join inserts no separator after the trailing `""` line, so the last
entry is followed by a single newline. -/
theorem nl_join_lines_of : ∀ es : List FlatEntry,
    nl_join (lines_of es) = (es.flatMap entry_block).dropLast := by
  intro es
  induction es with
  | nil => rfl
  | cons e es ih =>
    cases es with
    | nil =>
      show nl_join [line_of e, ""] = (([e].flatMap entry_block)).dropLast
      rw [show nl_join [line_of e, ""] = (line_of e).data ++ ['\n'] from rfl]
      rw [show ([e].flatMap entry_block) = (line_of e).data ++ ['\n', '\n'] by
        simp [entry_block]]
      rw [show (line_of e).data ++ ['\n', '\n']
          = ((line_of e).data ++ ['\n']) ++ ['\n'] by simp, List.dropLast_concat]
    | cons e2 es2 =>
      have hstep : nl_join (lines_of (e :: e2 :: es2))
          = (line_of e).data ++ '\n' :: '\n' :: nl_join (lines_of (e2 :: es2)) := by
        show nl_join (line_of e :: "" :: line_of e2 :: "" :: lines_of es2)
          = (line_of e).data ++ '\n' :: '\n' :: nl_join (line_of e2 :: "" :: lines_of es2)
        rfl
      rw [hstep, ih]
      have hne : (e2 :: es2).flatMap entry_block ≠ [] := by
        simp only [List.flatMap_cons, entry_block]
        intro hcontra
        have := congrArg List.length hcontra
        simp at this
      rw [show (e :: e2 :: es2).flatMap entry_block
          = entry_block e ++ (e2 :: es2).flatMap entry_block from by simp,
        List.dropLast_append_of_ne_nil (entry_block e) hne]
      simp [entry_block]

/-- C9 counterexample: on a single-entry forest the render output is
`"[a]: x\n"`, not the claimed concatenation of `"{indent}[{author}]: {body}\n\n"`
blocks (which would end in two newlines). -/
theorem C9_entry_block_counterexample :
    comments_to_text exForest1 200 30000 = "[a]: x\n"
    ∧ ("[a]: x\n" : String) ≠ "[a]: x\n\n"
    ∧ (comments_to_text exForest1 200 30000).data
        ≠ ((flatten_forest exForest1).take 200).flatMap entry_block :=
  ⟨rfl, by decide, by decide⟩

/-- C9 (amended): the joined text equals the concatenation of the per-entry
blocks `"{indent}[{author}]: {body}\n\n"` (indent two spaces per depth) over the
selected entries, with the final newline removed — i.e. every entry except the
last is rendered exactly as the claimed block and the last entry ends with a
single `"\n"`; and on character-limit truncation the appended marker is exactly
`"\n\n[...comments truncated...]"`. -/
theorem C9_entry_block_amended :
    (∀ (comments : List CommentNode) (maxE : Nat),
        rendered_lines_text comments maxE
          = (((flatten_forest comments).take maxE).flatMap entry_block).dropLast)
    ∧ (∀ (comments : List CommentNode) (maxE maxC : Nat),
        (rendered_lines_text comments maxE).length > maxC →
        (comments_to_text comments maxE maxC).data
          = (rendered_lines_text comments maxE).take maxC
              ++ '\n' :: '\n' :: ("[...comments truncated...]".data)) := by
  constructor
  · intro comments maxE
    unfold rendered_lines_text flatten_forest
    rw [ctt_outer_eq, Nat.sub_zero, nl_join_lines_of]
  · intro comments maxE maxC hgt
    show (if (rendered_lines_text comments maxE).length > maxC
        then (⟨(rendered_lines_text comments maxE).take maxC ++ trunc_marker.data⟩ : String)
        else ⟨rendered_lines_text comments maxE⟩).data = _
    rw [if_pos hgt]
    rfl

/-- C9 at a concrete input: the truncation marker appended on the long fixture
is exactly `"\n\n[...comments truncated...]"`. -/
theorem C9_entry_block_amended_witness :
    (rendered_lines_text exForestLong 1000).length > 50
    ∧ (comments_to_text exForestLong 1000 50).data
        = (rendered_lines_text exForestLong 1000).take 50
            ++ '\n' :: '\n' :: ("[...comments truncated...]".data) :=
  ⟨by decide, C9_entry_block_amended.2 exForestLong 1000 50 (by decide)⟩

/-- C5: the extractor applies its three strategies in order — verbatim parse,
fence-stripped parse, greedy first-opener-to-last-closer span parse — with the
first success winning, and it fails (raises, modelled `.error ()`) if and only
if all three strategies fail; both the shared utils chain and the HN-local
chain satisfy this, and the four specification examples evaluate as claimed. -/
theorem C5_extractor_chain :
    (∀ text : String, parse_json_response text =
        match strategy_verbatim text, strategy_fenced text, strategy_span text with
        | some v, _, _ => .ok v
        | none, some v, _ => .ok v
        | none, none, some v => .ok v
        | none, none, none => .error ())
    ∧ (∀ text : String, parse_json_response_hn text =
        match strategy_verbatim text, strategy_fenced text, strategy_span_hn text with
        | some v, _, _ => .ok v
        | none, some v, _ => .ok v
        | none, none, some v => .ok v
        | none, none, none => .error ())
    ∧ (∀ text : String, (parse_json_response text = .error ()
        ↔ strategy_verbatim text = none ∧ strategy_fenced text = none
            ∧ strategy_span text = none))
    ∧ (parse_json_response "\x7b\"a\":1\x7d" = .ok (.obj [("a", .num 1 0)])
      ∧ parse_json_response "```json\n\x7b\"a\":1\x7d\n```" = .ok (.obj [("a", .num 1 0)])
      ∧ parse_json_response "noise \x7b\"a\":1\x7d trailing" = .ok (.obj [("a", .num 1 0)])
      ∧ parse_json_response "not json at all" = .error ())
    ∧ (parse_json_response_hn "\x7b\"a\":1\x7d" = .ok (.obj [("a", .num 1 0)])
      ∧ parse_json_response_hn "```json\n\x7b\"a\":1\x7d\n```" = .ok (.obj [("a", .num 1 0)])
      ∧ parse_json_response_hn "noise \x7b\"a\":1\x7d trailing" = .ok (.obj [("a", .num 1 0)])
      ∧ parse_json_response_hn "not json at all" = .error ()) := by
  refine ⟨fun text => ?_, fun text => ?_, fun text => ?_,
    ⟨rfl, rfl, rfl, rfl⟩, ⟨rfl, rfl, rfl, rfl⟩⟩
  · unfold parse_json_response strategy_verbatim strategy_fenced strategy_span
    cases h1 : json_loads text with
    | some v => rfl
    | none =>
      cases h2 : json_loads (stripTrailingFence (stripLeadingFence (pyStrip text))) with
      | some v => rfl
      | none =>
        cases h3 : searchJsonSpan text.data with
        | none => rfl
        | some span =>
          rw [Option.some_bind]
          cases h4 : json_loads (String.mk span) <;> simp [h4]
  · unfold parse_json_response_hn strategy_verbatim strategy_fenced strategy_span_hn
    cases h1 : json_loads text with
    | some v => rfl
    | none =>
      cases h2 : json_loads (stripTrailingFence (stripLeadingFence (pyStrip text))) with
      | some v => rfl
      | none =>
        cases h3 : searchJsonSpanHn text.data with
        | none => rfl
        | some span =>
          rw [Option.some_bind]
          cases h4 : json_loads (String.mk span) <;> simp [h4]
  · unfold parse_json_response strategy_verbatim strategy_fenced strategy_span
    cases h1 : json_loads text with
    | some v => simp
    | none =>
      cases h2 : json_loads (stripTrailingFence (stripLeadingFence (pyStrip text))) with
      | some v => simp
      | none =>
        cases h3 : searchJsonSpan text.data with
        | none => simp
        | some span =>
          rw [Option.some_bind]
          cases h4 : json_loads (String.mk span) <;> simp [h4]
